import Mathlib

/-!
Shallow embedding of the stXTZ staking-dashboard data pipeline
(sources: src/api.ts, src/main.ts, and the chart-data module src/unnamed/part_000).

Conventions of the embedding:
* Raw on-chain amounts (mutez, smallest unit) are natural numbers; display
  amounts (TEZ) are rationals, obtained by the source's division by 1,000,000.
* JS strings are Lean Strings; the truthiness test on a timestamp string
  (op.timestamp) is modelled as inequality with the empty string.
* Numeric string fields of raw JSON records (xtz_amount, stxtz_amount,
  parameter.value) are modelled as Option Nat: some n when the field is
  present and holds a canonical decimal numeral (the only case the feed
  produces), none when the field is absent; JS truthiness of such a field is
  isSome, and parseInt is the identity on the modelled number.
* Fallible network calls are modelled by passing the response as a value:
  Option models a detail lookup (none = network error or non-success HTTP
  status), Except models a page request of the paginated fetcher.
-/

namespace StXTZ

/-- Operation kind of a canonical operation (the type field of
StakingOperation in src/api.ts, values stake / unstake / finalize). -/
inductive OpType where
  | stake
  | unstake
  | finalize
deriving DecidableEq, Repr

/-- Operation source (the source field, values bakery / stxtz). -/
inductive OpSource where
  | bakery
  | stxtz
deriving DecidableEq, Repr

/-- Canonical operation record, interface StakingOperation of src/api.ts.
The amount is in TEZ (already converted from mutez). -/
structure StakingOperation where
  timestamp : String
  type : OpType
  amount : ℚ
  source : OpSource
  sender : Option String := none
deriving DecidableEq, Repr

/-- Mutez-to-TEZ conversion, the division by 1,000,000 of src/api.ts. -/
def mutezToTez (n : ℕ) : ℚ := (n : ℚ) / 1000000

/-- Raw bakery feed record, interface BakeryResponse of src/api.ts. -/
structure BakeryResponse where
  level : ℕ
  timestamp : String
  action : String
  amount : ℕ
deriving DecidableEq, Repr

/-- Normalization part of fetchBakeryStaking (src/api.ts lines 184-192):
keep only records whose action is stake, unstake or finalize, drop
non-positive amounts, convert mutez to TEZ, tag with source bakery. -/
def normalizeBakery (data : List BakeryResponse) : List StakingOperation :=
  ((data.filter fun op =>
      op.action = "stake" ∨ op.action = "unstake" ∨ op.action = "finalize").filter
    fun op => 0 < op.amount).map fun op =>
      { timestamp := op.timestamp
        type := if op.action = "stake" then .stake
                else if op.action = "unstake" then .unstake
                else .finalize
        amount := mutezToTez op.amount
        source := .bakery }

/-- Raw stXTZ proxy feed record, interface StXTZResponse of src/api.ts.
paramValue models parameter.value: some n when the value is a numeric
string, none when it is an object (in which case the source's
typeof-check yields 0). -/
structure StXTZResponse where
  level : ℕ
  timestamp : String
  amount : ℕ
  hash : String
  counter : ℕ
  entrypoint : String
  paramValue : Option ℕ
  sender : Option String
deriving DecidableEq, Repr

/-- First normalization pass of fetchStXTZOperations (src/api.ts lines
209-245): deposits become stake operations (no amount check in the source),
request_withdrawal records with positive derivative amount are collected for
the resolver, finalize_withdrawal records with positive amount become
finalize operations, anything else is ignored. Returns (operations pushed so
far, collected withdrawals with their stxtz amounts). -/
def firstPass : List StXTZResponse → List StakingOperation × List (StXTZResponse × ℕ)
  | [] => ([], [])
  | op :: rest =>
    let r := firstPass rest
    if op.entrypoint = "deposit" then
      ({ timestamp := op.timestamp, type := .stake, amount := mutezToTez op.amount,
         source := .stxtz, sender := op.sender } :: r.1, r.2)
    else if op.entrypoint = "request_withdrawal" then
      let s := op.paramValue.getD 0
      if 0 < s then (r.1, (op, s) :: r.2) else r
    else if op.entrypoint = "finalize_withdrawal" then
      if 0 < op.amount then
        ({ timestamp := op.timestamp, type := .finalize, amount := mutezToTez op.amount,
           source := .stxtz, sender := op.sender } :: r.1, r.2)
      else r
    else r

/-! Date handling of the chart-data module. The source takes the UTC date
portion by timestamp.split('T')[0]; the characters before the first 'T'
are exactly that first split component. Calendar-date strings are compared
the way JS Array.prototype.sort compares strings, lexicographically by code
unit; dates are ASCII, so comparing code points is the same thing. -/

/-- UTC date portion of an ISO timestamp: the characters before the first
'T' (timestamp.split('T')[0] in the source). -/
def dateOf (ts : String) : String := ⟨ts.data.takeWhile fun c => c ≠ 'T'⟩

/-- Lexicographic comparison of character lists by code point. -/
def charListLe : List Char → List Char → Bool
  | [], _ => true
  | _ :: _, [] => false
  | a :: as, b :: bs =>
    decide (a.toNat < b.toNat) ||
      (decide (a.toNat = b.toNat) && charListLe as bs)

/-- String order used to sort calendar-date labels. -/
def dateLe (a b : String) : Prop := charListLe a.data b.data = true

instance : DecidableRel dateLe := fun _ _ => inferInstanceAs (Decidable (_ = true))

instance : IsTotal String dateLe where
  total a b := by
    show charListLe a.data b.data = true ∨ charListLe b.data a.data = true
    generalize a.data = u
    generalize b.data = v
    induction u generalizing v with
    | nil => left; rfl
    | cons x xs ih =>
      cases v with
      | nil => right; rfl
      | cons y ys =>
        simp only [charListLe, Bool.or_eq_true, Bool.and_eq_true, decide_eq_true_eq]
        rcases Nat.lt_trichotomy x.toNat y.toNat with h | h | h
        · left; left; exact h
        · rcases ih ys with h' | h'
          · left; right; exact ⟨h, h'⟩
          · right; right; exact ⟨h.symm, h'⟩
        · right; left; exact h

instance : IsTrans String dateLe where
  trans a b c := by
    show charListLe a.data b.data = true → charListLe b.data c.data = true →
      charListLe a.data c.data = true
    generalize a.data = u
    generalize b.data = v
    generalize c.data = w
    induction u generalizing v w with
    | nil => intro _ _; rfl
    | cons x xs ih =>
      intro hab hbc
      cases v with
      | nil => simp [charListLe] at hab
      | cons y ys =>
        cases w with
        | nil => simp [charListLe] at hbc
        | cons z zs =>
          simp only [charListLe, Bool.or_eq_true, Bool.and_eq_true, decide_eq_true_eq]
            at hab hbc ⊢
          rcases hab with h1 | ⟨h1, h1'⟩ <;> rcases hbc with h2 | ⟨h2, h2'⟩
          · exact Or.inl (h1.trans h2)
          · exact Or.inl (h2 ▸ h1)
          · exact Or.inl (h1 ▸ h2)
          · exact Or.inr ⟨h1.trans h2, ih ys zs h1' h2'⟩

/-- Chart output record, interface ChartData of the chart-data module. -/
structure ChartData where
  labels : List String
  bakeryStakes : List ℚ
  bakeryUnstakes : List ℚ
  stxtzDeposits : List ℚ
  stxtzWithdrawals : List ℚ
  bakeryBalance : List ℚ
  stxtzBalance : List ℚ
  bakeryFinalize : List ℚ
  stxtzFinalize : List ℚ
deriving DecidableEq, Repr

/-- Combined operations that take part in date-range discovery (chart-data
module line 22): both feeds, truthiness-filtered timestamp, finalize
excluded. -/
def nonFinalizeOps (bakeryOps stxtzOps : List StakingOperation) : List StakingOperation :=
  (bakeryOps ++ stxtzOps).filter fun op => op.timestamp ≠ "" ∧ op.type ≠ .finalize

/-- Sorted unique calendar dates of the non-finalize operations (chart-data
module lines 26-28). The source collects the dates in a Set (which removes
duplicates) and sorts the resulting array lexicographically; dedup followed
by an insertion sort under the code-point order produces that same sorted
duplicate-free list. -/
def sortedDates (bakeryOps stxtzOps : List StakingOperation) : List String :=
  (((nonFinalizeOps bakeryOps stxtzOps).map fun op => dateOf op.timestamp).dedup).insertionSort
    dateLe

/-- Per-day accumulator of one (list × kind) counter (chart-data module
lines 48-75): the forEach accumulation leaves, in the bucket of date d, the
sum of the amounts of the operations of that list with a truthy timestamp,
date d, and the given kind. Operations whose date has no bucket are dropped
by the if-existing check, which here corresponds to d ranging only over
sortedDates. -/
def dailySum (ops : List StakingOperation) (t : OpType) (d : String) : ℚ :=
  ((ops.filter fun op =>
      op.timestamp ≠ "" ∧ dateOf op.timestamp = d ∧ op.type = t).map
    fun op => op.amount).sum

/-- Running prefix sums (the runningBakeryBalance / runningStxtzBalance
accumulation of chart-data module lines 87-106). -/
def runningSums (acc : ℚ) : List ℚ → List ℚ
  | [] => []
  | x :: xs => (acc + x) :: runningSums (acc + x) xs

/-- processChartData of the chart-data module (lines 20-114): discover the
sorted unique dates of the non-finalize operations, accumulate every
operation of either list (finalize included) into its date bucket when one
exists, then emit the six per-day series and the two running balances
(prefix sums of stake minus finalize per source). -/
def processChartData (bakeryOps stxtzOps : List StakingOperation) : ChartData :=
  let dates := sortedDates bakeryOps stxtzOps
  { labels := dates
    bakeryStakes := dates.map (dailySum bakeryOps .stake)
    bakeryUnstakes := dates.map (dailySum bakeryOps .unstake)
    stxtzDeposits := dates.map (dailySum stxtzOps .stake)
    stxtzWithdrawals := dates.map (dailySum stxtzOps .unstake)
    bakeryBalance := runningSums 0
      (dates.map fun d => dailySum bakeryOps .stake d - dailySum bakeryOps .finalize d)
    stxtzBalance := runningSums 0
      (dates.map fun d => dailySum stxtzOps .stake d - dailySum stxtzOps .finalize d)
    bakeryFinalize := dates.map (dailySum bakeryOps .finalize)
    stxtzFinalize := dates.map (dailySum stxtzOps .finalize) }

/-! Withdrawal amount resolver (src/api.ts lines 54-151 and 252-326).
A transaction detail is an untyped JSON structure in the source; here it is
a tree of nodes, each node being an object (or array element) that may carry
the two amount fields xtz_amount and stxtz_amount, plus its substructures in
document order. Strings and numbers have no substructures, so recursing into
them contributes nothing, exactly as in the source. -/

/-- Generic scannable value node of a transaction detail. -/
inductive Node where
  | mk : Option ℕ → Option ℕ → List Node → Node

/-- The xtz_amount field of a node, when present. -/
def Node.xtz : Node → Option ℕ
  | .mk x _ _ => x

/-- The stxtz_amount field of a node, when present. -/
def Node.stxtz : Node → Option ℕ
  | .mk _ s _ => s

/-- Substructures of a node in document order. -/
def Node.children : Node → List Node
  | .mk _ _ c => c

mutual
/-- findXtzAmountEntries of src/api.ts (lines 77-97): collect, in preorder,
the (xtz_amount, stxtz_amount) pairs of every substructure carrying both
fields; the node's own pair is pushed before its substructures are visited,
as in the source. -/
def findXtzAmountEntries : Node → List (ℕ × ℕ)
  | .mk x s c =>
    (match x, s with
     | some a, some b => [(a, b)]
     | _, _ => []) ++ findXtzAmountList c

/-- Scan of a list of substructures in order. -/
def findXtzAmountList : List Node → List (ℕ × ℕ)
  | [] => []
  | n :: ns => findXtzAmountEntries n ++ findXtzAmountList ns
end

/-- Withdrawal-queue entry of a transaction's storage (interface
WithdrawalQueueItem of src/api.ts); the two amount fields modelled as
Option ℕ (absent field = none). -/
structure QueueItem where
  xtz_amount : Option ℕ
  stxtz_amount : Option ℕ
deriving DecidableEq, Repr

/-- One transaction of a detail response. pending_queue models
tx.storage.pending_queue (none when the storage or the field is absent or
not an array); body is the whole transaction object as a scannable tree, the
object findXtzAmountEntries walks — the queue entries appear in it among
everything else. -/
structure TxDetail where
  entrypoint : String
  pending_queue : Option (List QueueItem)
  body : Node

/-- Per-transaction resolution step of fetchWithdrawalAmountByHash
(src/api.ts lines 117-143): only request_withdrawal transactions are
considered; first the last pending_queue entry is used when it carries both
amounts and its stxtz_amount equals the expected value; otherwise the deep
scan runs, preferring an exact stxtz match and falling back to the last
entry found; with no entries at all the step yields nothing (the source
falls through to the next transaction). -/
def resolveTx (tx : TxDetail) (expected : ℕ) : Option ℕ :=
  if tx.entrypoint = "request_withdrawal" then
    let queueResult : Option ℕ :=
      match tx.pending_queue with
      | some q =>
        match q.getLast? with
        | some lastEntry =>
          match lastEntry.xtz_amount, lastEntry.stxtz_amount with
          | some x, some s => if s = expected then some x else none
          | _, _ => none
        | none => none
      | none => none
    match queueResult with
    | some x => some x
    | none =>
      let entries := findXtzAmountEntries tx.body
      match entries.find? fun e => e.2 = expected with
      | some e => some e.1
      | none => entries.getLast?.map fun e => e.1
  else none

/-- Loop of fetchWithdrawalAmountByHash over the transactions of the
response (src/api.ts lines 117-146): first transaction that yields an
amount wins; none of them yielding one gives null. -/
def lookupAmount : List TxDetail → ℕ → Option ℕ
  | [], _ => none
  | tx :: rest, expected =>
    match resolveTx tx expected with
    | some x => some x
    | none => lookupAmount rest expected

/-- fetchWithdrawalAmountByHash of src/api.ts (lines 100-151): the response
argument models the detail fetch — none is a network error or a non-success
HTTP status (both produce null in the source), some txs the parsed
transaction list (a single-object response is normalized to a one-element
list in the source). -/
def fetchWithdrawalAmountByHash (response : Option (List TxDetail)) (expected : ℕ) :
    Option ℕ :=
  match response with
  | none => none
  | some txs => lookupAmount txs expected

/-- Resolution order as the specification words it, for comparison with the
source-derived resolveTx: prefer the last element of the expected storage
field when present and non-empty and its derivative-token amount exactly
equals the expected value, returning that element's base-token amount;
otherwise scan the whole transaction detail for substructures carrying both
amount fields, returning the base amount of the first exact derivative
match, else the base amount of the last substructure in scan order. -/
def specResolve (tx : TxDetail) (expected : ℕ) : Option ℕ :=
  let entries := findXtzAmountEntries tx.body
  let scanResult : Option ℕ :=
    match entries.find? fun e => e.2 = expected with
    | some e => some e.1
    | none => entries.getLast?.map fun e => e.1
  match tx.pending_queue with
  | some q =>
    match q.getLast? with
    | some lastEntry =>
      if lastEntry.stxtz_amount = some expected then
        match lastEntry.xtz_amount with
        | some x => some x
        | none => scanResult
      else scanResult
    | none => scanResult
  | none => scanResult

/-! Cache and per-withdrawal resolution of fetchStXTZOperations
(src/api.ts lines 252-326). The persisted cache is a string-keyed map of
resolved TEZ amounts; modelled as an association list where the most recent
write shadows older entries, matching JS object assignment. -/

/-- Raw withdrawal record data the resolver uses: the hash, block level and
intra-transaction counter of the stXTZ feed record. -/
structure WithdrawalOp where
  hash : String
  level : ℕ
  counter : ℕ
  timestamp : String
  sender : Option String
deriving DecidableEq, Repr

/-- Cache key built at src/api.ts line 266: the hash and the block level of
the operation, joined by a dash. -/
def cacheKey (op : WithdrawalOp) : String := op.hash ++ "-" ++ toString op.level

/-- Lookup of a key in the cache map. -/
def lookupCache (cache : List (String × ℚ)) (k : String) : Option ℚ :=
  (cache.find? fun p => p.1 = k).map fun p => p.2

/-- Truthiness-guarded cache hit (src/api.ts line 269): the if-test on the
cached value means a stored 0 is treated as a miss, like any absent key. -/
def cacheHit (cache : List (String × ℚ)) (k : String) : Option ℚ :=
  match lookupCache cache k with
  | some v => if v = 0 then none else some v
  | none => none

/-- Outcome of resolving one withdrawal request: the TEZ amount used for the
canonical unstake operation, the cache after the step, and how many detail
lookups were made. -/
structure ResolveOutcome where
  amount : ℚ
  cache : List (String × ℚ)
  detailLookups : ℕ
deriving DecidableEq, Repr

/-- Per-withdrawal resolution step of fetchStXTZOperations (src/api.ts
lines 264-302): a truthy cache hit returns the cached amount with no detail
lookup; otherwise the detail is fetched and fetchWithdrawalAmountByHash is
consulted — a resolved amount is converted to TEZ and written to the cache
under the hash-level key; failure to resolve falls back to the stxtz amount
as a 1:1 approximation, and nothing is written to the cache. -/
def resolveOne (cache : List (String × ℚ)) (op : WithdrawalOp) (stxtzAmount : ℕ)
    (response : Option (List TxDetail)) : ResolveOutcome :=
  let key := cacheKey op
  match cacheHit cache key with
  | some v => ⟨v, cache, 0⟩
  | none =>
    match fetchWithdrawalAmountByHash response stxtzAmount with
    | some x => ⟨mutezToTez x, (key, mutezToTez x) :: cache, 1⟩
    | none => ⟨mutezToTez stxtzAmount, cache, 1⟩

/-! Paginated fetcher, fetchAllPages of src/api.ts (lines 155-176). The
page oracle maps an offset to the outcome of that page request: an error
models a failed request (a rejected fetch, or an error body that the
array spread throws on), ok a parsed page. The source's while loop has no
bound, so the model carries fuel; none means the fuel ran out before the
loop finished, which on a well-behaved feed never happens. -/

/-- Loop of fetchAllPages: request the page at the current offset, append
its records, stop when the page is short, otherwise advance the offset by
the page size. -/
def fetchAllPagesAux {α : Type} (pages : ℕ → Except String (List α)) (pageSize : ℕ) :
    ℕ → ℕ → List α → Option (Except String (List α))
  | 0, _, _ => none
  | fuel + 1, offset, acc =>
    match pages offset with
    | .error e => some (.error e)
    | .ok data =>
      if data.length < pageSize then some (.ok (acc ++ data))
      else fetchAllPagesAux pages pageSize fuel (offset + pageSize) (acc ++ data)

/-- fetchAllPages of src/api.ts: start at offset 0 with no records. -/
def fetchAllPages {α : Type} (pages : ℕ → Except String (List α)) (pageSize fuel : ℕ) :
    Option (Except String (List α)) :=
  fetchAllPagesAux pages pageSize fuel 0 []

/-! Reconciliation auditor, the matching loop of fetchStXTZOperations
(src/api.ts lines 330-347). -/

/-- Absolute tolerance for the finalize / withdrawal matching (0.1 TEZ). -/
def TOLERANCE : ℚ := 1 / 10

/-- Index of the first element satisfying the predicate
(Array.prototype.findIndex, with none for -1). -/
def findFirstIdx {α : Type} (p : α → Bool) : List α → Option ℕ
  | [] => none
  | a :: as => if p a then some 0 else (findFirstIdx p as).map (· + 1)

/-- Greedy first-fit matching loop: for each finalize amount in order, the
first still-unmatched withdrawal within the tolerance is consumed (removed
from the pool by splice); finalizes with no match are recorded in order.
Returns (matched count, unmatched finalize amounts, remaining pool). -/
def matchFinalizes : List ℚ → List ℚ → ℕ × List ℚ × List ℚ
  | [], pool => (0, [], pool)
  | f :: fs, pool =>
    match findFirstIdx (fun w => |w - f| < TOLERANCE) pool with
    | some i =>
      let r := matchFinalizes fs (pool.eraseIdx i)
      (r.1 + 1, r.2.1, r.2.2)
    | none =>
      let r := matchFinalizes fs pool
      (r.1, f :: r.2.1, r.2.2)

/-! Wallet aggregator, calculateWalletStats of src/api.ts (lines 403-440). -/

/-- Per-wallet running totals, interface WalletStats of src/api.ts. -/
structure WalletStats where
  address : String
  totalDeposited : ℚ
  totalWithdrawn : ℚ
  totalFinalized : ℚ
  netPosition : ℚ
  depositCount : ℕ
  withdrawCount : ℕ
  finalizeCount : ℕ
deriving DecidableEq, Repr

/-- Fresh all-zero wallet record (src/api.ts lines 410-419). -/
def initWallet (a : String) : WalletStats :=
  { address := a, totalDeposited := 0, totalWithdrawn := 0, totalFinalized := 0,
    netPosition := 0, depositCount := 0, withdrawCount := 0, finalizeCount := 0 }

/-- Apply one operation to a wallet record (src/api.ts lines 424-435):
bump the kind's total and count, then recompute the net position as
deposited minus withdrawn. -/
def applyOp (w : WalletStats) (op : StakingOperation) : WalletStats :=
  let w' :=
    match op.type with
    | .stake => { w with totalDeposited := w.totalDeposited + op.amount,
                         depositCount := w.depositCount + 1 }
    | .unstake => { w with totalWithdrawn := w.totalWithdrawn + op.amount,
                           withdrawCount := w.withdrawCount + 1 }
    | .finalize => { w with totalFinalized := w.totalFinalized + op.amount,
                            finalizeCount := w.finalizeCount + 1 }
  { w' with netPosition := w'.totalDeposited - w'.totalWithdrawn }

/-- One step of the wallet map accumulation (src/api.ts lines 406-436):
operations that are not stxtz-sourced or carry no sender are skipped; a
first-seen sender gets a fresh record appended (JS Map preserves insertion
order), and the sender's record is updated in place by applyOp. -/
def updateWallets (m : List (String × WalletStats)) (op : StakingOperation) :
    List (String × WalletStats) :=
  match op.source, op.sender with
  | .stxtz, some a =>
    if m.any fun p => p.1 = a then
      m.map fun p => if p.1 = a then (a, applyOp p.2 op) else p
    else m ++ [(a, applyOp (initWallet a) op)]
  | _, _ => m

/-- Wallet map after processing a list of operations. -/
def walletFold (ops : List StakingOperation) : List (String × WalletStats) :=
  ops.foldl updateWallets []

/-- Descending-net-position order of the final sort (src/api.ts line 439). -/
def walletGE (a b : WalletStats) : Prop := b.netPosition ≤ a.netPosition

instance : DecidableRel walletGE := fun _ _ => inferInstanceAs (Decidable (_ ≤ _))

/-- calculateWalletStats of src/api.ts: fold the operations into the wallet
map, take the records and sort them by descending net position (a stable
sort, ties keep insertion order). -/
def calculateWalletStats (ops : List StakingOperation) : List WalletStats :=
  ((walletFold ops).map fun p => p.2).insertionSort walletGE

/-! Concrete inputs used by the example theorems below. -/

/-- Concrete proxy stake operation used to witness the wallet invariant. -/
def walletExOp : StakingOperation :=
  { timestamp := "2024-01-01T00:00:00Z", type := .stake, amount := 5,
    source := .stxtz, sender := some "tz1abc" }

/-- Concrete withdrawal-request transaction whose pending queue's last entry
matches the expected derivative amount. -/
def exTx : TxDetail :=
  { entrypoint := "request_withdrawal"
    pending_queue := some [⟨some 3000000, some 7000000⟩]
    body := .mk (some 3000000) (some 7000000) [] }

/-- Concrete withdrawal operation whose block level (5) differs from its
intra-transaction counter (7). -/
def cexOp : WithdrawalOp := ⟨"oph", 5, 7, "2024-01-01T00:00:00Z", none⟩

/-- Operations whose two observed dates, 2024-01-01 and 2024-01-03, leave a
calendar gap at 2024-01-02. -/
def gapOps : List StakingOperation :=
  [ { timestamp := "2024-01-01T00:00:00Z", type := .stake, amount := 1, source := .bakery,
      sender := none },
    { timestamp := "2024-01-03T00:00:00Z", type := .stake, amount := 1, source := .bakery,
      sender := none } ]

/-- The raw bakery feed of the end-to-end scenario: one stake of 5,000,000
mutez on 2024-03-10 and one finalize of 2,000,000 mutez on 2024-03-11. -/
def e2eBakeryRaw : List BakeryResponse :=
  [ { level := 100, timestamp := "2024-03-10T12:00:00Z", action := "stake",
      amount := 5000000 },
    { level := 101, timestamp := "2024-03-11T12:00:00Z", action := "finalize",
      amount := 2000000 } ]

/-- A raw proxy deposit record with transaction amount zero. -/
def zeroDeposit : StXTZResponse :=
  { level := 1, timestamp := "2024-01-01T00:00:00Z", amount := 0, hash := "oph2",
    counter := 1, entrypoint := "deposit", paramValue := none, sender := some "tz1abc" }

/-- A raw bakery stake record with positive amount. -/
def posBakeryRec : BakeryResponse :=
  { level := 1, timestamp := "2024-01-01T00:00:00Z", action := "stake", amount := 5000000 }

/-! Helper lemmas shared by several claims. -/

theorem findFirstIdx_lt_length {α : Type} {p : α → Bool} :
    ∀ {l : List α} {i : ℕ}, findFirstIdx p l = some i → i < l.length := by
  intro l
  induction l with
  | nil => intro i h; simp [findFirstIdx] at h
  | cons a as ih =>
    intro i h
    by_cases hp : p a
    · simp [findFirstIdx, hp] at h
      simp only [List.length_cons]
      omega
    · simp only [findFirstIdx, hp, if_neg, Bool.false_eq_true, ite_false, Option.map_eq_some'] at h
      obtain ⟨j, hj, rfl⟩ := h
      have := ih hj
      simp only [List.length_cons]
      omega

theorem applyOp_net (w : WalletStats) (op : StakingOperation) :
    (applyOp w op).netPosition = (applyOp w op).totalDeposited - (applyOp w op).totalWithdrawn := by
  rcases op with ⟨ts, t, a, src, sd⟩
  cases t <;> simp [applyOp]

theorem updateWallets_net (m : List (String × WalletStats)) (op : StakingOperation)
    (hm : ∀ p ∈ m, p.2.netPosition = p.2.totalDeposited - p.2.totalWithdrawn) :
    ∀ p ∈ updateWallets m op,
      p.2.netPosition = p.2.totalDeposited - p.2.totalWithdrawn := by
  intro p hp
  rcases hop : op with ⟨ts, t, a, src, sd⟩
  subst hop
  cases src with
  | bakery => exact hm p hp
  | stxtz =>
    cases sd with
    | none => exact hm p hp
    | some addr =>
      simp only [updateWallets] at hp
      by_cases hany : (m.any fun q => q.1 = addr) = true
      · rw [if_pos hany] at hp
        rw [List.mem_map] at hp
        obtain ⟨q, hq, rfl⟩ := hp
        by_cases h1 : q.1 = addr
        · simp only [h1, if_pos]
          exact applyOp_net q.2 _
        · simp only [h1, if_neg, ite_false]
          exact hm q hq
      · rw [if_neg hany] at hp
        rcases List.mem_append.mp hp with h | h
        · exact hm p h
        · rw [List.mem_singleton] at h
          subst h
          exact applyOp_net _ _

theorem walletFold_net (ops : List StakingOperation) :
    ∀ m, (∀ p ∈ m, p.2.netPosition = p.2.totalDeposited - p.2.totalWithdrawn) →
      ∀ p ∈ ops.foldl updateWallets m,
        p.2.netPosition = p.2.totalDeposited - p.2.totalWithdrawn := by
  induction ops with
  | nil => intro m hm; simpa using hm
  | cons op rest ih =>
    intro m hm
    simp only [List.foldl_cons]
    exact ih _ (updateWallets_net m op hm)

/-! C10: conservation of the matcher. -/

/-- C10: for every pair of input lists, the matched count plus the number of
unmatched finalizes equals the number of finalize amounts, and the remaining
pool length plus the matched count equals the original pool length (each
match consumes exactly one withdrawal). -/
theorem matchFinalizes_conservation (fs pool : List ℚ) :
    (matchFinalizes fs pool).1 + (matchFinalizes fs pool).2.1.length = fs.length ∧
    (matchFinalizes fs pool).2.2.length + (matchFinalizes fs pool).1 = pool.length := by
  induction fs generalizing pool with
  | nil => simp [matchFinalizes]
  | cons f fs ih =>
    rcases h : findFirstIdx (fun w => decide (|w - f| < TOLERANCE)) pool with _ | i
    · have hrec := ih pool
      rcases hmf : matchFinalizes fs pool with ⟨m, u, rest⟩
      rw [hmf] at hrec
      dsimp only at hrec
      simp only [matchFinalizes, h, hmf, List.length_cons]
      omega
    · have hi := findFirstIdx_lt_length h
      have hrec := ih (pool.eraseIdx i)
      have hlen : (pool.eraseIdx i).length = pool.length - 1 := by
        rw [List.length_eraseIdx]
        simp [hi]
      rcases hmf : matchFinalizes fs (pool.eraseIdx i) with ⟨m, u, rest⟩
      rw [hmf] at hrec
      dsimp only at hrec
      simp only [matchFinalizes, h, hmf, List.length_cons]
      omega

/-! C8: concrete first-fit matching example. -/

/-- C8: with finalize amounts 10 and 20 and pool 20.05, 10.02, the first
finalize consumes 10.02 (pool index 1, the first tolerance hit) and the
second consumes 20.05; both are matched, none unmatched, pool exhausted. -/
theorem matchFinalizes_example :
    matchFinalizes [10, 20] [2005/100, 1002/100] = (2, [], []) ∧
    findFirstIdx (fun w => decide (|w - (10:ℚ)| < TOLERANCE)) [2005/100, 1002/100] = some 1 := by
  norm_num [matchFinalizes, findFirstIdx, TOLERANCE, List.eraseIdx, abs_lt]



/-! C9: wallet net-position invariant. -/

/-- C9: for any operation list, after each contributing operation (that is,
for every prefix of the input) every wallet record in the map satisfies
netPosition = totalDeposited - totalWithdrawn, and so does every record of
the final sorted output. -/
theorem calculateWalletStats_netPosition (ops : List StakingOperation) (n : ℕ) :
    (∀ p ∈ walletFold (ops.take n),
      p.2.netPosition = p.2.totalDeposited - p.2.totalWithdrawn) ∧
    (∀ w ∈ calculateWalletStats ops,
      w.netPosition = w.totalDeposited - w.totalWithdrawn) := by
  constructor
  · intro p hp
    exact walletFold_net (ops.take n) [] (by simp) p hp
  · intro w hw
    unfold calculateWalletStats at hw
    have hperm := List.perm_insertionSort walletGE ((walletFold ops).map fun p => p.2)
    have hw' : w ∈ (walletFold ops).map fun p => p.2 := hperm.mem_iff.mp hw
    rw [List.mem_map] at hw'
    obtain ⟨p, hp, rfl⟩ := hw'
    exact walletFold_net ops [] (by simp) p hp

/-- Witness for C9: the invariant instantiated at a one-operation input and
the single wallet record it produces. -/
theorem calculateWalletStats_netPosition_witness :
    applyOp (initWallet "tz1abc") walletExOp ∈ calculateWalletStats [walletExOp] ∧
    (applyOp (initWallet "tz1abc") walletExOp).netPosition =
      (applyOp (initWallet "tz1abc") walletExOp).totalDeposited -
        (applyOp (initWallet "tz1abc") walletExOp).totalWithdrawn := by
  have hmem : applyOp (initWallet "tz1abc") walletExOp ∈ calculateWalletStats [walletExOp] := by
    rw [show calculateWalletStats [walletExOp] =
        [applyOp (initWallet "tz1abc") walletExOp] from rfl]
    exact List.mem_singleton.mpr rfl
  exact ⟨hmem, (calculateWalletStats_netPosition [walletExOp] 1).2 _ hmem⟩

/-! C4: resolution preference order of the withdrawal detail lookup. -/

/-- C4: on a single-transaction detail of a withdrawal request, the
source's resolution agrees with the spec's stated preference order: the
last pending-queue entry is used exactly when it carries the expected
derivative amount (and a base amount), and otherwise the deep scan decides,
preferring the first exact derivative match and falling back to the last
substructure found. -/
theorem lookupAmount_eq_specResolve (tx : TxDetail) (expected : ℕ)
    (h : tx.entrypoint = "request_withdrawal") :
    lookupAmount [tx] expected = specResolve tx expected := by
  have h1 : lookupAmount [tx] expected = resolveTx tx expected := by
    simp only [lookupAmount]
    cases resolveTx tx expected <;> simp
  rw [h1]
  rcases tx with ⟨ep, pq, body⟩
  simp only at h
  subst h
  cases pq with
  | none => simp [resolveTx, specResolve]
  | some q =>
    cases hl : q.getLast? with
    | none => simp [resolveTx, specResolve, hl]
    | some lastEntry =>
      rcases lastEntry with ⟨xa, sa⟩
      cases xa with
      | none =>
        cases sa with
        | none => simp [resolveTx, specResolve, hl]
        | some sv =>
          by_cases hsv : sv = expected <;>
            simp [resolveTx, specResolve, hl, hsv]
      | some xv =>
        cases sa with
        | none => simp [resolveTx, specResolve, hl]
        | some sv =>
          by_cases hsv : sv = expected <;>
            simp [resolveTx, specResolve, hl, hsv]

/-- Witness for C4: the equivalence applied at a concrete transaction. -/
theorem lookupAmount_eq_specResolve_witness :
    lookupAmount [exTx] 7000000 = specResolve exTx 7000000 :=
  lookupAmount_eq_specResolve exTx 7000000 rfl

/-! C5: fallback of the withdrawal amount resolver. -/

/-- C5: when the cache has no usable entry for the operation and the detail
lookup yields nothing (network error, non-success status, or no viable
amount-bearing substructure), the resolver returns the derivative amount
converted 1:1 and leaves the cache untouched. -/
theorem resolveOne_fallback (cache : List (String × ℚ)) (op : WithdrawalOp)
    (stxtzAmount : ℕ) (response : Option (List TxDetail))
    (hmiss : cacheHit cache (cacheKey op) = none)
    (hfail : fetchWithdrawalAmountByHash response stxtzAmount = none) :
    resolveOne cache op stxtzAmount response =
      ⟨mutezToTez stxtzAmount, cache, 1⟩ := by
  simp [resolveOne, hmiss, hfail]

/-- Witness for C5: a 404-style failed lookup (response none) on an empty
cache returns the 1:1 fallback and writes nothing. -/
theorem resolveOne_fallback_witness :
    resolveOne [] ⟨"oph", 5, 7, "2024-01-01T00:00:00Z", none⟩ 3000000 none =
      ⟨mutezToTez 3000000, [], 1⟩ :=
  resolveOne_fallback [] ⟨"oph", 5, 7, "2024-01-01T00:00:00Z", none⟩ 3000000 none rfl rfl

/-! C6: cache key and cache-hit behaviour. -/

/-- Counterexample for C6: resolving cexOp writes the cache under the key
built from the hash and the block level, oph-5, not under oph-7, the key the
claim's hash-and-counter format would give (the counter is what the detail
lookup uses). -/
theorem cacheKey_level_cex :
    (resolveOne [] cexOp 7000000 (some [exTx])).cache =
      [("oph-5", mutezToTez 3000000)] ∧
    cexOp.counter = 7 ∧ cexOp.level = 5 ∧
    lookupCache (resolveOne [] cexOp 7000000 (some [exTx])).cache "oph-7" = none := by
  refine ⟨rfl, rfl, rfl, rfl⟩

/-- C6 (amended): the cache key joins the hash and the block level; a truthy
cache hit under that key returns the cached value with zero detail lookups
and an unchanged cache, and a successful miss writes the resolved amount
under that same hash-level key. -/
theorem resolveOne_cache_contract (cache : List (String × ℚ)) (op : WithdrawalOp)
    (stxtzAmount : ℕ) (response : Option (List TxDetail)) (v : ℚ) :
    cacheKey op = op.hash ++ "-" ++ toString op.level ∧
    (cacheHit cache (cacheKey op) = some v →
      resolveOne cache op stxtzAmount response = ⟨v, cache, 0⟩) ∧
    (∀ x : ℕ, cacheHit cache (cacheKey op) = none →
      fetchWithdrawalAmountByHash response stxtzAmount = some x →
      (resolveOne cache op stxtzAmount response).cache =
        (op.hash ++ "-" ++ toString op.level, mutezToTez x) :: cache) := by
  refine ⟨rfl, ?_, ?_⟩
  · intro h
    simp [resolveOne, h]
  · intro x h hx
    simp only [resolveOne, h, hx]
    rfl

/-- Witness for C6 (amended): a hit on the hash-level key returns the cached
value without any detail lookup. -/
theorem resolveOne_cache_contract_witness :
    resolveOne [("oph-5", 2)] cexOp 7000000 none = ⟨2, [("oph-5", 2)], 0⟩ :=
  (resolveOne_cache_contract [("oph-5", 2)] cexOp 7000000 none 2).2.1 (by decide)

/-! C7: page failure aborts the whole paginated fetch. -/

theorem fetchAllPagesAux_error {α : Type} (pages : ℕ → Except String (List α)) (N : ℕ)
    (e : String) :
    ∀ (k fuel offset : ℕ) (acc : List α),
      (∀ j < k, ∃ d, pages (offset + j * N) = .ok d ∧ N ≤ d.length) →
      pages (offset + k * N) = .error e →
      k < fuel →
      fetchAllPagesAux pages N fuel offset acc = some (.error e) := by
  intro k
  induction k with
  | zero =>
    intro fuel offset acc _ hfail hfuel
    cases fuel with
    | zero => omega
    | succ fu =>
      have hp : pages offset = .error e := by simpa using hfail
      simp [fetchAllPagesAux, hp]
  | succ k ih =>
    intro fuel offset acc hfull hfail hfuel
    obtain ⟨d, hd, hlen⟩ := hfull 0 (by omega)
    rw [show offset + 0 * N = offset by ring] at hd
    cases fuel with
    | zero => omega
    | succ fu =>
      have hnot : ¬ d.length < N := by omega
      simp only [fetchAllPagesAux, hd, hnot, ite_false]
      apply ih fu (offset + N) (acc ++ d)
      · intro j hj
        obtain ⟨d2, hd2, hlen2⟩ := hfull (j + 1) (by omega)
        refine ⟨d2, ?_, hlen2⟩
        rw [← hd2]
        congr 1
        ring
      · rw [← hfail]
        congr 1
        ring
      · omega

/-- C7: if every page before the k-th comes back full and the k-th page
request fails, the whole paginated fetch fails with that error — no partial
result is ever returned for a run containing a failed page request. -/
theorem fetchAllPages_error {α : Type} (pages : ℕ → Except String (List α))
    (N k fuel : ℕ) (e : String)
    (hfull : ∀ j < k, ∃ d, pages (j * N) = .ok d ∧ N ≤ d.length)
    (hfail : pages (k * N) = .error e)
    (hfuel : k < fuel) :
    fetchAllPages pages N fuel = some (.error e) := by
  apply fetchAllPagesAux_error pages N e k fuel 0 []
  · simpa using hfull
  · simpa using hfail
  · exact hfuel

/-- Witness for C7: a feed whose first page is full and whose second page
request fails makes the whole two-page fetch fail. -/
theorem fetchAllPages_error_witness :
    fetchAllPages (fun o => if o = 0 then .ok [(0:ℤ), 0] else .error "boom") 2 3 =
      some (.error "boom") :=
  fetchAllPages_error _ 2 1 3 "boom"
    (by
      intro j hj
      have hj0 : j = 0 := by omega
      subst hj0
      exact ⟨[0, 0], rfl, by norm_num⟩)
    rfl (by norm_num)



/-! C2: shape of the daily bucket date sequence. -/

/-- Counterexample for C2: with non-finalize operations on 2024-01-01 and
2024-01-03 only, the bucket list is exactly those two observed dates;
2024-01-02 lies strictly inside the spanned date range yet gets no bucket,
so the buckets are not dense over the full calendar range. -/
theorem processChartData_gap_cex :
    (processChartData gapOps []).labels = ["2024-01-01", "2024-01-03"] ∧
    "2024-01-02" ∉ (processChartData gapOps []).labels ∧
    dateLe "2024-01-01" "2024-01-02" ∧ dateLe "2024-01-02" "2024-01-03" := by
  refine ⟨by decide, by decide, by decide, by decide⟩

/-- C2 (amended): the daily bucket date sequence is strictly ascending (in
particular duplicate-free), and a date has a bucket exactly when some
non-finalize operation with a truthy timestamp falls on it — dates inside
the spanned range with no non-finalize activity get no bucket. -/
theorem processChartData_labels_shape (bakeryOps stxtzOps : List StakingOperation) :
    (processChartData bakeryOps stxtzOps).labels.Pairwise
      (fun x y => dateLe x y ∧ x ≠ y) ∧
    ∀ d, (d ∈ (processChartData bakeryOps stxtzOps).labels ↔
      ∃ op ∈ nonFinalizeOps bakeryOps stxtzOps, dateOf op.timestamp = d) := by
  have hlab : (processChartData bakeryOps stxtzOps).labels =
      sortedDates bakeryOps stxtzOps := rfl
  constructor
  · rw [hlab]
    unfold sortedDates
    have hsorted : List.Sorted dateLe
        ((((nonFinalizeOps bakeryOps stxtzOps).map fun op =>
          dateOf op.timestamp).dedup).insertionSort dateLe) :=
      List.sorted_insertionSort dateLe _
    have hnodup :
        ((((nonFinalizeOps bakeryOps stxtzOps).map fun op =>
          dateOf op.timestamp).dedup).insertionSort dateLe).Nodup :=
      (List.perm_insertionSort dateLe _).nodup_iff.mpr (List.nodup_dedup _)
    exact hsorted.and hnodup
  · intro d
    rw [hlab]
    unfold sortedDates
    rw [(List.perm_insertionSort dateLe _).mem_iff, List.mem_dedup, List.mem_map]

/-! C1: end-to-end bakery stake / finalize scenario. -/

/-- Counterexample for C1: the aggregation of the scenario produces exactly
one bucket, 2024-03-10, not the two buckets (D and D+1) the claim expects —
the finalize-only day 2024-03-11 is excluded from date discovery and gets no
bucket. -/
theorem processChartData_e2e_cex :
    (processChartData (normalizeBakery e2eBakeryRaw) []).labels = ["2024-03-10"] := by
  decide

/-- C1 (amended): in the scenario the output has a single bucket for day D
with bakery-stake 5.0, bakery-finalize 0 and running bakery balance 5.0; the
finalize of 2.0 on day D+1 falls on a date with no non-finalize operation,
so it is silently dropped from the day-bucketed output. -/
theorem processChartData_e2e :
    processChartData (normalizeBakery e2eBakeryRaw) [] =
      { labels := ["2024-03-10"], bakeryStakes := [5], bakeryUnstakes := [0],
        stxtzDeposits := [0], stxtzWithdrawals := [0], bakeryBalance := [5],
        stxtzBalance := [0], bakeryFinalize := [0], stxtzFinalize := [0] } := by
  simp +decide [processChartData, normalizeBakery, e2eBakeryRaw, sortedDates, nonFinalizeOps,
    dailySum, dateOf, runningSums, mutezToTez, List.filter, List.dedup, List.insertionSort,
    List.orderedInsert]
  norm_num

/-! C3: amounts and zero-amount handling in the normalizers. -/

/-- Counterexample for C3: a zero-amount proxy deposit is not discarded: it
yields a canonical stake operation with amount 0 in the normalizer output. -/
theorem zero_deposit_not_dropped :
    (firstPass [zeroDeposit]).1 =
      [{ timestamp := "2024-01-01T00:00:00Z", type := .stake, amount := 0,
         source := .stxtz, sender := some "tz1abc" }] := by
  norm_num [firstPass, zeroDeposit, mutezToTez]

/-- C3 (amended): every operation emitted by the normalizers has amount at
least 0; zero-amount bakery records, zero-amount proxy finalizes and
zero-derivative withdrawal requests are discarded (their surviving outputs
and collected withdrawals have strictly positive amounts), but zero-amount
proxy deposits are emitted with amount 0. -/
theorem normalization_amounts (bdata : List BakeryResponse) (sdata : List StXTZResponse) :
    (∀ op ∈ normalizeBakery bdata, 0 < op.amount) ∧
    (∀ op ∈ (firstPass sdata).1,
      0 ≤ op.amount ∧ (op.type = .finalize → 0 < op.amount)) ∧
    (∀ w ∈ (firstPass sdata).2, 0 < w.2) := by
  refine ⟨?_, ?_⟩
  · intro op hop
    unfold normalizeBakery at hop
    rw [List.mem_map] at hop
    obtain ⟨r, hr, rfl⟩ := hop
    have hpos : 0 < r.amount := by
      have := (List.mem_filter.mp hr).2
      simpa using this
    show 0 < mutezToTez r.amount
    unfold mutezToTez
    positivity
  · induction sdata with
    | nil => exact ⟨by simp [firstPass], by simp [firstPass]⟩
    | cons r rest ih =>
      obtain ⟨ih1, ih2⟩ := ih
      constructor
      · intro op hop
        simp only [firstPass] at hop
        split_ifs at hop with h1 h2 h3 h4 h5
        · rcases List.mem_cons.mp hop with hop | hop
          · subst hop
            refine ⟨?_, ?_⟩
            · show (0:ℚ) ≤ mutezToTez r.amount
              unfold mutezToTez
              positivity
            · intro hty
              simp at hty
          · exact ih1 op hop
        · exact ih1 op hop
        · exact ih1 op hop
        · rcases List.mem_cons.mp hop with hop | hop
          · subst hop
            have hc : (0:ℚ) < (r.amount : ℚ) := by exact_mod_cast h5
            refine ⟨?_, fun _ => ?_⟩
            · show (0:ℚ) ≤ mutezToTez r.amount
              unfold mutezToTez
              exact le_of_lt (div_pos hc (by norm_num))
            · show (0:ℚ) < mutezToTez r.amount
              unfold mutezToTez
              exact div_pos hc (by norm_num)
          · exact ih1 op hop
        · exact ih1 op hop
        · exact ih1 op hop
      · intro w hw
        simp only [firstPass] at hw
        split_ifs at hw with h1 h2 h3 h4 h5
        · exact ih2 w hw
        · rcases List.mem_cons.mp hw with hw | hw
          · subst hw
            exact h3
          · exact ih2 w hw
        · exact ih2 w hw
        · exact ih2 w hw
        · exact ih2 w hw
        · exact ih2 w hw



/-- Witness for C3 (amended): positivity instantiated at a concrete
one-record bakery feed. -/
theorem normalization_amounts_witness :
    0 < ({ timestamp := "2024-01-01T00:00:00Z", type := .stake,
           amount := mutezToTez 5000000, source := .bakery,
           sender := none } : StakingOperation).amount :=
  (normalization_amounts [posBakeryRec] []).1 _ (by
    rw [show normalizeBakery [posBakeryRec] =
        [{ timestamp := "2024-01-01T00:00:00Z", type := .stake,
           amount := mutezToTez 5000000, source := .bakery, sender := none }] from rfl]
    exact List.mem_singleton.mpr rfl)

end StXTZ
